import Mathlib

/-!
Verification of the Gillespie Lotka-Volterra simulator (`gillespie_lv` in
`src/app.py`) against its design specification.

The embedding models Python floats as rationals (`ℚ`) and the integer
population counts as `ℤ`.  The implicit global random number generator is
made explicit: each executed loop body of `gillespie_lv` consumes one
`Draw`, holding the standard exponential deviate behind
`np.random.exponential(1 / total_rate)` and the standard uniform deviate
behind `np.random.uniform(0, total_rate)`.  Since a run of the Python loop
consumes an unbounded stream, the embedding takes a finite list of draws
and returns `none` when the list is exhausted while the loop guard still
holds; every terminating run of the Python program corresponds to a `some`
result on a sufficiently long draw list.
-/

/-- One recorded sample of the trajectory: elapsed simulated time and the
two population counts (one entry each of `times`, `prey_pop`, `pred_pop` in
`app.py`). -/
structure Sample where
  time : ℚ
  prey : ℤ
  pred : ℤ
  deriving DecidableEq

/-- The pair of standard random deviates consumed by one executed loop
body: `e` is the standard exponential deviate, so that
`np.random.exponential(1 / total_rate)` returns `e / total_rate`, and `u01`
is the standard uniform deviate on `[0, 1)`, so that
`np.random.uniform(0, total_rate)` returns `u01 * total_rate`. -/
structure Draw where
  e : ℚ
  u01 : ℚ
  deriving DecidableEq

/-- Sum of the four propensities of `app.py` lines 29-35 at a given state:
`a*prey + b*prey*pred + c*pred + d*prey*pred`. -/
def totalRate (a b c d : ℚ) (prey pred : ℤ) : ℚ :=
  a * (prey : ℚ) + b * (prey : ℚ) * (pred : ℚ) + c * (pred : ℚ)
    + d * (prey : ℚ) * (pred : ℚ)

/-- The event selector of `app.py` lines 44-52: given the four propensities
and the uniform draw `u`, return the index of the branch taken
(0 = prey birth, 1 = predation, 2 = predator death, 3 = predator
reproduction).  The comparisons are against the cumulative sums of the
propensities, exactly as in the source. -/
def selectEvent (r0 r1 r2 r3 u : ℚ) : Fin 4 :=
  if u < r0 then 0
  else if u < r0 + r1 then 1
  else if u < r0 + r1 + r2 then 2
  else 3

/-- The state update applied by the branch bodies of `app.py` lines 45-52:
event 0 increments prey, event 1 decrements prey, event 2 decrements
predator, event 3 increments predator. -/
def applyEvent (ev : Fin 4) (prey pred : ℤ) : ℤ × ℤ :=
  match ev with
  | 0 => (prey + 1, pred)
  | 1 => (prey - 1, pred)
  | 2 => (prey, pred - 1)
  | 3 => (prey, pred + 1)

/-- One loop body's state change (`app.py` lines 44-52): draw
`u = u01 * total_rate` (that is `np.random.uniform(0, total_rate)`), select
the branch by comparing `u` against the cumulative sums of the propensities
`rates[0] = a*prey`, `rates[1] = b*prey*pred`, `rates[2] = c*pred`,
`rates[3] = d*prey*pred`, and apply that branch's update. -/
def stepState (a b c d : ℚ) (w : Draw) (prey pred : ℤ) : ℤ × ℤ :=
  applyEvent
    (selectEvent (a * (prey : ℚ)) (b * (prey : ℚ) * (pred : ℚ))
      (c * (pred : ℚ)) (d * (prey : ℚ) * (pred : ℚ))
      (w.u01 * totalRate a b c d prey pred))
    prey pred

/-- The `while` loop of `app.py` lines 27-57.  Arguments after the rate
parameters: the remaining draw stream, the current time `t`, and the
current populations.  Each executed loop body advances the time by
`dt = e / total_rate` (that is `np.random.exponential(1 / total_rate)`,
line 40), applies `stepState`, and appends the new sample (lines 55-57).
Returns the list of samples appended after the current state, or `none` if
the finite draw stream runs out while the loop guard still holds. -/
def runAux (a b c d max_time : ℚ) (draws : List Draw) (t : ℚ)
    (prey pred : ℤ) : Option (List Sample) :=
  if t < max_time ∧ 0 < prey ∧ 0 < pred then
    if totalRate a b c d prey pred = 0 then some []
    else
      match draws with
      | [] => none
      | w :: rest =>
        match runAux a b c d max_time rest
            (t + w.e / totalRate a b c d prey pred)
            (stepState a b c d w prey pred).1
            (stepState a b c d w prey pred).2 with
        | none => none
        | some tail =>
          some (⟨t + w.e / totalRate a b c d prey pred,
            (stepState a b c d w prey pred).1,
            (stepState a b c d w prey pred).2⟩ :: tail)
  else some []
termination_by structural draws

/-- The function `gillespie_lv` of `app.py`: record the initial sample
`(0, prey_init, pred_init)` (lines 22-25) and then run the loop. -/
def gillespie_lv (prey_init pred_init : ℤ) (a b c d max_time : ℚ)
    (draws : List Draw) : Option (List Sample) :=
  match runAux a b c d max_time draws 0 prey_init pred_init with
  | none => none
  | some tail => some (⟨0, prey_init, pred_init⟩ :: tail)

/-- A sample satisfies a stop condition of the run loop: the total
propensity vanishes there, or the time horizon is reached, or one of the
populations is extinct. -/
def stopCond (a b c d max_time : ℚ) (s : Sample) : Prop :=
  totalRate a b c d s.prey s.pred = 0 ∨ max_time ≤ s.time ∨
    s.prey = 0 ∨ s.pred = 0

/-- The relation between consecutive trajectory samples: exactly one of the
two populations changes, and by exactly one. -/
def stepRel (s s' : Sample) : Prop :=
  (s'.prey = s.prey + 1 ∧ s'.pred = s.pred) ∨
  (s'.prey = s.prey - 1 ∧ s'.pred = s.pred) ∨
  (s'.prey = s.prey ∧ s'.pred = s.pred - 1) ∨
  (s'.prey = s.prey ∧ s'.pred = s.pred + 1)

lemma applyEvent_cases (ev : Fin 4) (p q : ℤ) :
    applyEvent ev p q = (p + 1, q) ∨ applyEvent ev p q = (p - 1, q) ∨
    applyEvent ev p q = (p, q - 1) ∨ applyEvent ev p q = (p, q + 1) := by
  fin_cases ev <;> simp [applyEvent]

lemma stepState_cases (a b c d : ℚ) (w : Draw) (p q : ℤ) :
    stepState a b c d w p q = (p + 1, q) ∨
    stepState a b c d w p q = (p - 1, q) ∨
    stepState a b c d w p q = (p, q - 1) ∨
    stepState a b c d w p q = (p, q + 1) := by
  unfold stepState
  exact applyEvent_cases _ p q

lemma stepState_nonneg (a b c d : ℚ) (w : Draw) (p q : ℤ)
    (hp : 0 < p) (hq : 0 < q) :
    0 ≤ (stepState a b c d w p q).1 ∧ 0 ≤ (stepState a b c d w p q).2 := by
  rcases stepState_cases a b c d w p q with h | h | h | h <;> rw [h] <;>
    constructor <;> simp <;> omega

/-- Case analysis on a successful `runAux` call: either the loop guard
failed and nothing was appended, or the total propensity was zero and
nothing was appended, or one draw was consumed, one event applied and
recorded, and the loop recursed. -/
lemma runAux_some_cases (a b c d mt : ℚ) (draws : List Draw) (t : ℚ)
    (p q : ℤ) (tail : List Sample)
    (h : runAux a b c d mt draws t p q = some tail) :
    (¬ (t < mt ∧ 0 < p ∧ 0 < q) ∧ tail = []) ∨
    ((t < mt ∧ 0 < p ∧ 0 < q) ∧ totalRate a b c d p q = 0 ∧ tail = []) ∨
    (∃ w rest tail', draws = w :: rest ∧ (t < mt ∧ 0 < p ∧ 0 < q) ∧
      totalRate a b c d p q ≠ 0 ∧
      runAux a b c d mt rest (t + w.e / totalRate a b c d p q)
        (stepState a b c d w p q).1 (stepState a b c d w p q).2 = some tail' ∧
      tail = ⟨t + w.e / totalRate a b c d p q, (stepState a b c d w p q).1,
        (stepState a b c d w p q).2⟩ :: tail') := by
  rw [runAux.eq_def] at h
  by_cases hg : t < mt ∧ 0 < p ∧ 0 < q
  · rw [if_pos hg] at h
    by_cases htot : totalRate a b c d p q = 0
    · rw [if_pos htot] at h
      right; left
      exact ⟨hg, htot, (Option.some.injEq _ _ ▸ h).symm⟩
    · rw [if_neg htot] at h
      cases draws with
      | nil => simp at h
      | cons w rest =>
        right; right
        cases hrec : runAux a b c d mt rest (t + w.e / totalRate a b c d p q)
            (stepState a b c d w p q).1 (stepState a b c d w p q).2 with
        | none => simp [hrec] at h
        | some tl =>
          simp only [hrec, Option.some.injEq] at h
          exact ⟨w, rest, tl, rfl, hg, htot, hrec, h.symm⟩
  · rw [if_neg hg] at h
    left
    simp only [Option.some.injEq] at h
    exact ⟨hg, h.symm⟩

/-- If `runAux` succeeds from a state with non-negative populations, the
last sample of the current state followed by the appended samples satisfies
a stop condition. -/
lemma runAux_getLast_stop (a b c d mt : ℚ) (draws : List Draw) :
    ∀ (t : ℚ) (p q : ℤ) (tail : List Sample), 0 ≤ p → 0 ≤ q →
    runAux a b c d mt draws t p q = some tail →
    ∀ s, (Sample.mk t p q :: tail).getLast? = some s →
      stopCond a b c d mt s := by
  induction draws with
  | nil =>
    intro t p q tail hp hq hrun s hs
    rcases runAux_some_cases a b c d mt [] t p q tail hrun with
      ⟨hg, htail⟩ | ⟨hg, htot, htail⟩ | ⟨w, rest, tail', heq, _⟩
    · subst htail
      simp only [List.getLast?_singleton, Option.some.injEq] at hs
      subst hs
      unfold stopCond
      rcases not_and_or.mp hg with h1 | h1
      · exact Or.inr (Or.inl (not_lt.mp h1))
      · rcases not_and_or.mp h1 with h2 | h2
        · exact Or.inr (Or.inr (Or.inl (show p = 0 by omega)))
        · exact Or.inr (Or.inr (Or.inr (show q = 0 by omega)))
    · subst htail
      simp only [List.getLast?_singleton, Option.some.injEq] at hs
      subst hs
      exact Or.inl htot
    · cases heq
  | cons w₀ rest₀ ih =>
    intro t p q tail hp hq hrun s hs
    rcases runAux_some_cases a b c d mt (w₀ :: rest₀) t p q tail hrun with
      ⟨hg, htail⟩ | ⟨hg, htot, htail⟩ | ⟨w, rest, tail', heq, hg, htot, hrec, htail⟩
    · subst htail
      simp only [List.getLast?_singleton, Option.some.injEq] at hs
      subst hs
      unfold stopCond
      rcases not_and_or.mp hg with h1 | h1
      · exact Or.inr (Or.inl (not_lt.mp h1))
      · rcases not_and_or.mp h1 with h2 | h2
        · exact Or.inr (Or.inr (Or.inl (show p = 0 by omega)))
        · exact Or.inr (Or.inr (Or.inr (show q = 0 by omega)))
    · subst htail
      simp only [List.getLast?_singleton, Option.some.injEq] at hs
      subst hs
      exact Or.inl htot
    · injection heq with hw hrest
      subst hw hrest htail
      rw [List.getLast?_cons_cons] at hs
      obtain ⟨hp', hq'⟩ := stepState_nonneg a b c d w₀ p q hg.2.1 hg.2.2
      exact ih _ _ _ _ hp' hq' hrec s hs

lemma stepRel_of_stepState (a b c d : ℚ) (w : Draw) (t t' : ℚ) (p q : ℤ) :
    stepRel ⟨t, p, q⟩
      ⟨t', (stepState a b c d w p q).1, (stepState a b c d w p q).2⟩ := by
  unfold stepRel
  rcases stepState_cases a b c d w p q with h | h | h | h <;> rw [h] <;> simp

/-- Consecutive samples produced by `runAux` are related by exactly one
unit change of exactly one population. -/
lemma runAux_chain_stepRel (a b c d mt : ℚ) (draws : List Draw) :
    ∀ (t : ℚ) (p q : ℤ) (tail : List Sample),
    runAux a b c d mt draws t p q = some tail →
    List.Chain' stepRel (Sample.mk t p q :: tail) := by
  induction draws with
  | nil =>
    intro t p q tail hrun
    rcases runAux_some_cases a b c d mt [] t p q tail hrun with
      ⟨_, htail⟩ | ⟨_, _, htail⟩ | ⟨w, rest, tail', heq, _⟩
    · subst htail; exact List.chain'_singleton _
    · subst htail; exact List.chain'_singleton _
    · cases heq
  | cons w₀ rest₀ ih =>
    intro t p q tail hrun
    rcases runAux_some_cases a b c d mt (w₀ :: rest₀) t p q tail hrun with
      ⟨_, htail⟩ | ⟨_, _, htail⟩ | ⟨w, rest, tail', heq, hg, htot, hrec, htail⟩
    · subst htail; exact List.chain'_singleton _
    · subst htail; exact List.chain'_singleton _
    · injection heq with hw hrest
      subst hw hrest htail
      exact List.chain'_cons.mpr
        ⟨stepRel_of_stepState a b c d w₀ t _ p q, ih _ _ _ _ hrec⟩

/-- All samples produced by `runAux` from a state with non-negative
populations have non-negative populations. -/
lemma runAux_nonneg (a b c d mt : ℚ) (draws : List Draw) :
    ∀ (t : ℚ) (p q : ℤ) (tail : List Sample), 0 ≤ p → 0 ≤ q →
    runAux a b c d mt draws t p q = some tail →
    ∀ s ∈ Sample.mk t p q :: tail, 0 ≤ s.prey ∧ 0 ≤ s.pred := by
  induction draws with
  | nil =>
    intro t p q tail hp hq hrun
    rcases runAux_some_cases a b c d mt [] t p q tail hrun with
      ⟨_, htail⟩ | ⟨_, _, htail⟩ | ⟨w, rest, tail', heq, _⟩
    · subst htail; intro s hs; simp at hs; subst hs; exact ⟨hp, hq⟩
    · subst htail; intro s hs; simp at hs; subst hs; exact ⟨hp, hq⟩
    · cases heq
  | cons w₀ rest₀ ih =>
    intro t p q tail hp hq hrun
    rcases runAux_some_cases a b c d mt (w₀ :: rest₀) t p q tail hrun with
      ⟨_, htail⟩ | ⟨_, _, htail⟩ | ⟨w, rest, tail', heq, hg, htot, hrec, htail⟩
    · subst htail; intro s hs; simp at hs; subst hs; exact ⟨hp, hq⟩
    · subst htail; intro s hs; simp at hs; subst hs; exact ⟨hp, hq⟩
    · injection heq with hw hrest
      subst hw hrest htail
      obtain ⟨hp', hq'⟩ := stepState_nonneg a b c d w₀ p q hg.2.1 hg.2.2
      intro s hs
      rcases List.mem_cons.mp hs with hs0 | hs1
      · subst hs0; exact ⟨hp, hq⟩
      · exact ih _ _ _ _ hp' hq' hrec s hs1

/-- Every sample of a `runAux` result that is followed by another sample
was a state in which the loop guard held, so both populations were strictly
positive there. -/
lemma runAux_chain_guard (a b c d mt : ℚ) (draws : List Draw) :
    ∀ (t : ℚ) (p q : ℤ) (tail : List Sample),
    runAux a b c d mt draws t p q = some tail →
    List.Chain' (fun s _ => 0 < s.prey ∧ 0 < s.pred)
      (Sample.mk t p q :: tail) := by
  induction draws with
  | nil =>
    intro t p q tail hrun
    rcases runAux_some_cases a b c d mt [] t p q tail hrun with
      ⟨_, htail⟩ | ⟨_, _, htail⟩ | ⟨w, rest, tail', heq, _⟩
    · subst htail; exact List.chain'_singleton _
    · subst htail; exact List.chain'_singleton _
    · cases heq
  | cons w₀ rest₀ ih =>
    intro t p q tail hrun
    rcases runAux_some_cases a b c d mt (w₀ :: rest₀) t p q tail hrun with
      ⟨_, htail⟩ | ⟨_, _, htail⟩ | ⟨w, rest, tail', heq, hg, htot, hrec, htail⟩
    · subst htail; exact List.chain'_singleton _
    · subst htail; exact List.chain'_singleton _
    · injection heq with hw hrest
      subst hw hrest htail
      exact List.chain'_cons.mpr ⟨⟨hg.2.1, hg.2.2⟩, ih _ _ _ _ hrec⟩

lemma totalRate_nonneg (a b c d : ℚ) (p q : ℤ)
    (ha : 0 ≤ a) (hb : 0 ≤ b) (hc : 0 ≤ c) (hd : 0 ≤ d)
    (hp : 0 ≤ p) (hq : 0 ≤ q) : 0 ≤ totalRate a b c d p q := by
  unfold totalRate
  have hp' : (0:ℚ) ≤ (p:ℚ) := by exact_mod_cast hp
  have hq' : (0:ℚ) ≤ (q:ℚ) := by exact_mod_cast hq
  have h0 := mul_nonneg ha hp'
  have h1 := mul_nonneg (mul_nonneg hb hp') hq'
  have h2 := mul_nonneg hc hq'
  have h3 := mul_nonneg (mul_nonneg hd hp') hq'
  linarith

/-- With non-negative rates and populations and strictly positive
exponential deviates, the recorded times strictly increase along the
trajectory. -/
lemma runAux_chain_time (a b c d mt : ℚ)
    (ha : 0 ≤ a) (hb : 0 ≤ b) (hc : 0 ≤ c) (hd : 0 ≤ d) (draws : List Draw) :
    ∀ (t : ℚ) (p q : ℤ) (tail : List Sample), 0 ≤ p → 0 ≤ q →
    (∀ w ∈ draws, 0 < w.e) →
    runAux a b c d mt draws t p q = some tail →
    List.Chain' (fun s s' => s.time < s'.time) (Sample.mk t p q :: tail) := by
  induction draws with
  | nil =>
    intro t p q tail _ _ _ hrun
    rcases runAux_some_cases a b c d mt [] t p q tail hrun with
      ⟨_, htail⟩ | ⟨_, _, htail⟩ | ⟨w, rest, tail', heq, _⟩
    · subst htail; exact List.chain'_singleton _
    · subst htail; exact List.chain'_singleton _
    · cases heq
  | cons w₀ rest₀ ih =>
    intro t p q tail hp hq he hrun
    rcases runAux_some_cases a b c d mt (w₀ :: rest₀) t p q tail hrun with
      ⟨_, htail⟩ | ⟨_, _, htail⟩ | ⟨w, rest, tail', heq, hg, htot, hrec, htail⟩
    · subst htail; exact List.chain'_singleton _
    · subst htail; exact List.chain'_singleton _
    · injection heq with hw hrest
      subst hw hrest htail
      obtain ⟨hp', hq'⟩ := stepState_nonneg a b c d w₀ p q hg.2.1 hg.2.2
      have htpos : 0 < totalRate a b c d p q :=
        lt_of_le_of_ne (totalRate_nonneg a b c d p q ha hb hc hd hp hq)
          (Ne.symm htot)
      have hdt : 0 < w₀.e / totalRate a b c d p q :=
        div_pos (he w₀ (List.mem_cons_self _ _)) htpos
      refine List.chain'_cons.mpr ⟨by simp only []; linarith, ?_⟩
      exact ih _ _ _ _ hp' hq'
        (fun w hw => he w (List.mem_cons_of_mem _ hw)) hrec

/-- Every sample of a `runAux` result other than the last one has a time
strictly below the horizon, because the loop guard held at it. -/
lemma runAux_dropLast_lt (a b c d mt : ℚ) (draws : List Draw) :
    ∀ (t : ℚ) (p q : ℤ) (tail : List Sample),
    runAux a b c d mt draws t p q = some tail →
    ∀ s ∈ (Sample.mk t p q :: tail).dropLast, s.time < mt := by
  induction draws with
  | nil =>
    intro t p q tail hrun
    rcases runAux_some_cases a b c d mt [] t p q tail hrun with
      ⟨_, htail⟩ | ⟨_, _, htail⟩ | ⟨w, rest, tail', heq, _⟩
    · subst htail; intro s hs; simp at hs
    · subst htail; intro s hs; simp at hs
    · cases heq
  | cons w₀ rest₀ ih =>
    intro t p q tail hrun
    rcases runAux_some_cases a b c d mt (w₀ :: rest₀) t p q tail hrun with
      ⟨_, htail⟩ | ⟨_, _, htail⟩ | ⟨w, rest, tail', heq, hg, htot, hrec, htail⟩
    · subst htail; intro s hs; simp at hs
    · subst htail; intro s hs; simp at hs
    · injection heq with hw hrest
      subst hw hrest htail
      intro s hs
      rw [List.dropLast_cons₂] at hs
      rcases List.mem_cons.mp hs with hs0 | hs1
      · subst hs0; exact hg.1
      · exact ih _ _ _ _ hrec s hs1

/-- Claim C1: for non-negative propensities `r0, r1, r2, r3` and a uniform
draw `u` with `0 ≤ u < r0 + r1 + r2 + r3`, the event selector chooses event
`i` exactly when `u` lies in the `i`-th contiguous half-open sub-interval
of `[0, total_rate)` of lengths `r0, r1, r2, r3` in that fixed order; in
particular an event whose propensity is exactly `0` is never selected. -/
theorem selectEvent_partition (r0 r1 r2 r3 u : ℚ)
    (h0 : 0 ≤ r0) (h1 : 0 ≤ r1) (h2 : 0 ≤ r2) (h3 : 0 ≤ r3)
    (hu0 : 0 ≤ u) (hu : u < r0 + r1 + r2 + r3) :
    (selectEvent r0 r1 r2 r3 u = 0 ↔ 0 ≤ u ∧ u < r0) ∧
    (selectEvent r0 r1 r2 r3 u = 1 ↔ r0 ≤ u ∧ u < r0 + r1) ∧
    (selectEvent r0 r1 r2 r3 u = 2 ↔ r0 + r1 ≤ u ∧ u < r0 + r1 + r2) ∧
    (selectEvent r0 r1 r2 r3 u = 3 ↔
      r0 + r1 + r2 ≤ u ∧ u < r0 + r1 + r2 + r3) ∧
    (r0 = 0 → selectEvent r0 r1 r2 r3 u ≠ 0) ∧
    (r1 = 0 → selectEvent r0 r1 r2 r3 u ≠ 1) ∧
    (r2 = 0 → selectEvent r0 r1 r2 r3 u ≠ 2) ∧
    (r3 = 0 → selectEvent r0 r1 r2 r3 u ≠ 3) := by
  unfold selectEvent
  split_ifs with ha hb hc
  · exact ⟨iff_of_true rfl ⟨hu0, ha⟩,
      iff_of_false (by decide) (fun hx => by linarith [hx.1]),
      iff_of_false (by decide) (fun hx => by linarith [hx.1]),
      iff_of_false (by decide) (fun hx => by linarith [hx.1]),
      fun hz => absurd (hz ▸ ha) (not_lt.mpr hu0),
      fun _ => by decide, fun _ => by decide, fun _ => by decide⟩
  · exact ⟨iff_of_false (by decide) (fun hx => absurd hx.2 ha),
      iff_of_true rfl ⟨not_lt.mp ha, hb⟩,
      iff_of_false (by decide) (fun hx => absurd hb (not_lt.mpr hx.1)),
      iff_of_false (by decide) (fun hx => by linarith [hx.1]),
      fun _ => by decide,
      fun hz => absurd hb (by rw [hz, add_zero]; exact ha),
      fun _ => by decide, fun _ => by decide⟩
  · exact ⟨iff_of_false (by decide) (fun hx => absurd hx.2 ha),
      iff_of_false (by decide) (fun hx => absurd hx.2 hb),
      iff_of_true rfl ⟨not_lt.mp hb, hc⟩,
      iff_of_false (by decide) (fun hx => absurd hc (not_lt.mpr hx.1)),
      fun _ => by decide, fun _ => by decide,
      fun hz => absurd hc (by rw [hz, add_zero]; exact hb),
      fun _ => by decide⟩
  · exact ⟨iff_of_false (by decide) (fun hx => absurd hx.2 ha),
      iff_of_false (by decide) (fun hx => absurd hx.2 hb),
      iff_of_false (by decide) (fun hx => absurd hx.2 hc),
      iff_of_true rfl ⟨not_lt.mp hc, hu⟩,
      fun _ => by decide, fun _ => by decide, fun _ => by decide,
      fun hz => absurd hu (by rw [hz, add_zero]; exact hc)⟩

/-- Witness for C1 at `r0 = 1, r1 = 0, r2 = 2, r3 = 1, u = 3/2`: the draw
falls in the third sub-interval `[1, 3)`, so event 2 is selected. -/
theorem selectEvent_partition_witness : selectEvent 1 0 2 1 (3/2) = 2 := by
  have h := selectEvent_partition 1 0 2 1 (3/2) (by norm_num) (by norm_num)
    (by norm_num) (by norm_num) (by norm_num) (by norm_num)
  exact (h.2.2.1).mpr ⟨by norm_num, by norm_num⟩

/-- Claim C2: for valid inputs, a returned trajectory starts with the
sample `(0, prey_init, pred_init)` and its last sample satisfies a stop
condition of the run loop: the total rate is `0` there, or its time is at
least `max_time`, or one of its population counts is `0`. -/
theorem gillespie_lv_first_last (prey_init pred_init : ℤ)
    (a b c d max_time : ℚ) (draws : List Draw) (traj : List Sample)
    (hp : 1 ≤ prey_init) (hq : 1 ≤ pred_init)
    (ha : 0 ≤ a) (hb : 0 ≤ b) (hc : 0 ≤ c) (hd : 0 ≤ d) (hmt : 0 < max_time)
    (hrun : gillespie_lv prey_init pred_init a b c d max_time draws =
      some traj) :
    traj.head? = some ⟨0, prey_init, pred_init⟩ ∧
    ∀ s, traj.getLast? = some s → stopCond a b c d max_time s := by
  unfold gillespie_lv at hrun
  cases hrec : runAux a b c d max_time draws 0 prey_init pred_init with
  | none => simp [hrec] at hrun
  | some tail =>
    simp only [hrec, Option.some.injEq] at hrun
    subst hrun
    exact ⟨rfl, runAux_getLast_stop a b c d max_time draws 0 prey_init
      pred_init tail (by omega) (by omega) hrec⟩

/-- Witness for C2: the run `prey=1, pred=1, a=b=d=0, c=1, max_time=1` with
one draw ends at the sample `(1, 1, 0)`, whose predator count is `0`. -/
theorem gillespie_lv_first_last_witness :
    ([⟨0, 1, 1⟩, ⟨1, 1, 0⟩] : List Sample).head? = some ⟨0, 1, 1⟩ ∧
    ∀ s, ([⟨0, 1, 1⟩, ⟨1, 1, 0⟩] : List Sample).getLast? = some s →
      stopCond 0 0 1 0 1 s :=
  gillespie_lv_first_last 1 1 0 0 1 0 1 [⟨1, 1/2⟩] [⟨0, 1, 1⟩, ⟨1, 1, 0⟩]
    (by norm_num) (by norm_num) (by norm_num) (by norm_num) (by norm_num)
    (by norm_num) (by norm_num)
    (by norm_num [gillespie_lv, runAux, stepState, totalRate, selectEvent,
      applyEvent])

/-- Claim C3: in every returned trajectory, consecutive samples differ in
exactly one of the two population counts, and by exactly plus or minus
one. -/
theorem gillespie_lv_bounded_delta (prey_init pred_init : ℤ)
    (a b c d max_time : ℚ) (draws : List Draw) (traj : List Sample)
    (hrun : gillespie_lv prey_init pred_init a b c d max_time draws =
      some traj) :
    List.Chain' stepRel traj := by
  unfold gillespie_lv at hrun
  cases hrec : runAux a b c d max_time draws 0 prey_init pred_init with
  | none => simp [hrec] at hrun
  | some tail =>
    simp only [hrec, Option.some.injEq] at hrun
    subst hrun
    exact runAux_chain_stepRel a b c d max_time draws 0 prey_init pred_init
      tail hrec

/-- Witness for C3 on a concrete two-sample run: the single event decreases
the predator count by one and leaves the prey count unchanged. -/
theorem gillespie_lv_bounded_delta_witness :
    List.Chain' stepRel [⟨0, 1, 1⟩, ⟨1, 1, 0⟩] :=
  gillespie_lv_bounded_delta 1 1 0 0 1 0 1 [⟨1, 1/2⟩] [⟨0, 1, 1⟩, ⟨1, 1, 0⟩]
    (by norm_num [gillespie_lv, runAux, stepState, totalRate, selectEvent,
      applyEvent])

/-- Claim C4: from non-negative initial populations with non-negative
rates, every sample of a returned trajectory has non-negative populations;
moreover every sample that is followed by another one had both populations
strictly positive (the loop guard held there), so a decrement is never
applied to a count that is already `0`. -/
theorem gillespie_lv_nonneg (prey_init pred_init : ℤ)
    (a b c d max_time : ℚ) (draws : List Draw) (traj : List Sample)
    (hp : 0 ≤ prey_init) (hq : 0 ≤ pred_init)
    (ha : 0 ≤ a) (hb : 0 ≤ b) (hc : 0 ≤ c) (hd : 0 ≤ d)
    (hrun : gillespie_lv prey_init pred_init a b c d max_time draws =
      some traj) :
    (∀ s ∈ traj, 0 ≤ s.prey ∧ 0 ≤ s.pred) ∧
    List.Chain' (fun s _ => 0 < s.prey ∧ 0 < s.pred) traj := by
  unfold gillespie_lv at hrun
  cases hrec : runAux a b c d max_time draws 0 prey_init pred_init with
  | none => simp [hrec] at hrun
  | some tail =>
    simp only [hrec, Option.some.injEq] at hrun
    subst hrun
    exact ⟨runAux_nonneg a b c d max_time draws 0 prey_init pred_init tail
        hp hq hrec,
      runAux_chain_guard a b c d max_time draws 0 prey_init pred_init tail
        hrec⟩

/-- Witness for C4 on a concrete two-sample run. -/
theorem gillespie_lv_nonneg_witness :
    (∀ s ∈ ([⟨0, 1, 1⟩, ⟨1, 1, 0⟩] : List Sample),
      0 ≤ s.prey ∧ 0 ≤ s.pred) ∧
    List.Chain' (fun s _ => 0 < s.prey ∧ 0 < s.pred)
      ([⟨0, 1, 1⟩, ⟨1, 1, 0⟩] : List Sample) :=
  gillespie_lv_nonneg 1 1 0 0 1 0 1 [⟨1, 1/2⟩] [⟨0, 1, 1⟩, ⟨1, 1, 0⟩]
    (by norm_num) (by norm_num) (by norm_num) (by norm_num) (by norm_num)
    (by norm_num)
    (by norm_num [gillespie_lv, runAux, stepState, totalRate, selectEvent,
      applyEvent])

/-- Claim C5: when every exponential deviate supplied by the random source
is strictly positive (and the inputs satisfy the non-negativity
preconditions), the recorded times strictly increase from each sample to
the next, so no two samples share a time value. -/
theorem gillespie_lv_time_strict_mono (prey_init pred_init : ℤ)
    (a b c d max_time : ℚ) (draws : List Draw) (traj : List Sample)
    (hp : 0 ≤ prey_init) (hq : 0 ≤ pred_init)
    (ha : 0 ≤ a) (hb : 0 ≤ b) (hc : 0 ≤ c) (hd : 0 ≤ d)
    (he : ∀ w ∈ draws, 0 < w.e)
    (hrun : gillespie_lv prey_init pred_init a b c d max_time draws =
      some traj) :
    List.Pairwise (fun s s' => s.time < s'.time) traj := by
  unfold gillespie_lv at hrun
  cases hrec : runAux a b c d max_time draws 0 prey_init pred_init with
  | none => simp [hrec] at hrun
  | some tail =>
    simp only [hrec, Option.some.injEq] at hrun
    subst hrun
    have hchain := runAux_chain_time a b c d max_time ha hb hc hd draws 0
      prey_init pred_init tail hp hq he hrec
    letI : IsTrans Sample (fun s s' => s.time < s'.time) :=
      ⟨fun _ _ _ hxy hyz => lt_trans hxy hyz⟩
    exact List.chain'_iff_pairwise.mp hchain

/-- Witness for C5 on a concrete two-sample run with times `0 < 1`. -/
theorem gillespie_lv_time_strict_mono_witness :
    List.Pairwise (fun s s' => s.time < s'.time)
      ([⟨0, 1, 1⟩, ⟨1, 1, 0⟩] : List Sample) :=
  gillespie_lv_time_strict_mono 1 1 0 0 1 0 1 [⟨1, 1/2⟩]
    [⟨0, 1, 1⟩, ⟨1, 1, 0⟩]
    (by norm_num) (by norm_num) (by norm_num) (by norm_num) (by norm_num)
    (by norm_num)
    (by intro w hw; rw [List.mem_singleton] at hw; subst hw; norm_num)
    (by norm_num [gillespie_lv, runAux, stepState, totalRate, selectEvent,
      applyEvent])

/-- Claim C6: every sample of a returned trajectory other than the last one
has a time strictly below `max_time`; hence at most one recorded sample has
time at or past the horizon and it is the last one.  The event that first
reaches or exceeds `max_time` is still applied and recorded with its own
overshooting time, as the witness run shows. -/
theorem gillespie_lv_horizon (prey_init pred_init : ℤ)
    (a b c d max_time : ℚ) (draws : List Draw) (traj : List Sample)
    (hrun : gillespie_lv prey_init pred_init a b c d max_time draws =
      some traj) :
    ∀ s ∈ traj.dropLast, s.time < max_time := by
  unfold gillespie_lv at hrun
  cases hrec : runAux a b c d max_time draws 0 prey_init pred_init with
  | none => simp [hrec] at hrun
  | some tail =>
    simp only [hrec, Option.some.injEq] at hrun
    subst hrun
    exact runAux_dropLast_lt a b c d max_time draws 0 prey_init pred_init
      tail hrec

/-- Witness for C6: in the run `prey=1, pred=1, a=1, b=c=d=0, max_time=1/2`
with one draw of exponential deviate `2`, the overshooting event at time
`2 > 1/2` is applied and recorded as the last sample, and all earlier
samples are strictly below the horizon. -/
theorem gillespie_lv_horizon_witness :
    (∀ s ∈ ([⟨0, 1, 1⟩, ⟨2, 2, 1⟩] : List Sample).dropLast,
      s.time < 1/2) ∧ (1/2 : ℚ) < 2 :=
  ⟨gillespie_lv_horizon 1 1 1 0 0 0 (1/2) [⟨2, 0⟩] [⟨0, 1, 1⟩, ⟨2, 2, 1⟩]
    (by norm_num [gillespie_lv, runAux, stepState, totalRate, selectEvent,
      applyEvent]),
  by norm_num⟩

/-- Counterexample to C7: at the scenario-B input
`prey_init=0, pred_init=5, a=1, b=1/50, c=1, d=1/100, max_time=50`, the
returned trajectory is the single initial sample `(0, 0, 5)` for any draw
stream, so its last sample has predator count `5 ≠ 0` and time `0 < 50`:
the run does not proceed as predator decay and does not end with predator
extinction or the horizon. -/
theorem scenarioB_counterexample :
    gillespie_lv 0 5 1 (1/50) 1 (1/100) 50 [⟨1, 0⟩] = some [⟨0, 0, 5⟩] ∧
    ¬ (∀ traj s, gillespie_lv 0 5 1 (1/50) 1 (1/100) 50 [⟨1, 0⟩] =
        some traj →
        traj.getLast? = some s → (s.pred = 0 ∨ (50:ℚ) ≤ s.time)) := by
  constructor
  · unfold gillespie_lv
    rw [runAux.eq_def]
    norm_num
  · intro h
    have := h [⟨0, 0, 5⟩] ⟨0, 0, 5⟩
      (by unfold gillespie_lv; rw [runAux.eq_def]; norm_num) rfl
    rcases this with h1 | h1
    · exact absurd h1 (by norm_num)
    · exact absurd h1 (by norm_num)

/-- Amended C7: at the scenario-B input the loop guard `prey > 0` fails
immediately because `prey_init = 0`, so for every draw stream the run
terminates at the first stop check and the returned trajectory is exactly
the single initial sample `(0, 0, 5)`. -/
theorem scenarioB_amended (draws : List Draw) :
    gillespie_lv 0 5 1 (1/50) 1 (1/100) 50 draws = some [⟨0, 0, 5⟩] := by
  unfold gillespie_lv
  rw [runAux.eq_def]
  norm_num

/-- Claim C8: when one of the initial populations is `0`, the run
terminates at the first loop-guard check for every draw stream, and the
returned trajectory records nothing beyond the single initial sample. -/
theorem gillespie_lv_degenerate_init (prey_init pred_init : ℤ)
    (a b c d max_time : ℚ) (draws : List Draw)
    (h : prey_init = 0 ∨ pred_init = 0) :
    gillespie_lv prey_init pred_init a b c d max_time draws =
      some [⟨0, prey_init, pred_init⟩] := by
  unfold gillespie_lv
  rw [runAux.eq_def]
  have hg : ¬ ((0:ℚ) < max_time ∧ 0 < prey_init ∧ 0 < pred_init) := by
    rintro ⟨-, h1, h2⟩
    rcases h with h | h <;> omega
  rw [if_neg hg]

/-- Witness for C8 with `pred_init = 0`. -/
theorem gillespie_lv_degenerate_init_witness :
    gillespie_lv 3 0 1 1 1 1 10 [] = some [⟨0, 3, 0⟩] :=
  gillespie_lv_degenerate_init 3 0 1 1 1 1 10 [] (Or.inr rfl)

/-- Claim C9: with all four rates `0` and positive initial populations, the
returned trajectory is exactly the single initial sample for every horizon
and every draw stream: the total rate is `0` at the initial state, so the
run stops immediately. -/
theorem gillespie_lv_all_rates_zero (prey_init pred_init : ℤ)
    (max_time : ℚ) (draws : List Draw)
    (hp : 0 < prey_init) (hq : 0 < pred_init) :
    gillespie_lv prey_init pred_init 0 0 0 0 max_time draws =
      some [⟨0, prey_init, pred_init⟩] := by
  unfold gillespie_lv
  rw [runAux.eq_def]
  have htot : totalRate 0 0 0 0 prey_init pred_init = 0 := by
    unfold totalRate; ring
  rw [htot]
  simp

/-- Witness for C9 at `prey_init = 7, pred_init = 4`. -/
theorem gillespie_lv_all_rates_zero_witness :
    gillespie_lv 7 4 0 0 0 0 10 [⟨1, 0⟩] = some [⟨0, 7, 4⟩] :=
  gillespie_lv_all_rates_zero 7 4 10 [⟨1, 0⟩] (by norm_num) (by norm_num)

/-- Claim C10: the simulation is a deterministic function of its inputs and
its random stream: two runs with identical initial populations, rates,
horizon and random deviate sequences return identical trajectories. -/
theorem gillespie_lv_deterministic (p₁ p₂ q₁ q₂ : ℤ)
    (a₁ a₂ b₁ b₂ c₁ c₂ d₁ d₂ m₁ m₂ : ℚ) (draws₁ draws₂ : List Draw)
    (hp : p₁ = p₂) (hq : q₁ = q₂) (ha : a₁ = a₂) (hb : b₁ = b₂)
    (hc : c₁ = c₂) (hd : d₁ = d₂) (hm : m₁ = m₂) (hw : draws₁ = draws₂) :
    gillespie_lv p₁ q₁ a₁ b₁ c₁ d₁ m₁ draws₁ =
      gillespie_lv p₂ q₂ a₂ b₂ c₂ d₂ m₂ draws₂ := by
  subst hp hq ha hb hc hd hm hw
  rfl

/-- Witness for C10 at a concrete input. -/
theorem gillespie_lv_deterministic_witness :
    gillespie_lv 1 2 1 1 1 1 5 [⟨1, 0⟩] =
      gillespie_lv 1 2 1 1 1 1 5 [⟨1, 0⟩] :=
  gillespie_lv_deterministic 1 1 2 2 1 1 1 1 1 1 1 1 5 5 [⟨1, 0⟩] [⟨1, 0⟩]
    rfl rfl rfl rfl rfl rfl rfl rfl
